import Mathlib

set_option maxRecDepth 4000

/-
Formal model of the ghost.md editing core: the compression codec wrappers
(utils.ts), the share-link decode path (components/Viewer.tsx), the share
escalation policy, history/debounce/auto-save state machine, search, and
scroll synchronisation (components/Editor.tsx).  Text buffers are List Char
or String; timers are modelled as explicit deadlines on a Nat clock, fired
by explicit events.
-/

namespace GhostMd

/-! ## Compression codec

The wrappers compressMarkdown / decompressMarkdown are translated from
src (utils.ts).  The underlying lz-string library is an external
dependency whose code is not part of this repository, so it is modelled
from the spec (section 2: a reversible text-to-token transform producing
URL-safe output).
-/

/-- URL-safe digit alphabet of the modelled codec (the uriSafe key set of
the library: letters, digits, plus and minus).  It contains a plus sign
and no space, which is what the space-fixing substitution in
decompressMarkdown relies on. -/
def uriKeyChars : List Char :=
  "ABCDEFGHIJKLMNOPQRSTUVWXYZabcdefghijklmnopqrstuvwxyz0123456789+-".data

/-- Digit character for a value below 64. -/
def digitOf (n : Nat) : Char := uriKeyChars.getD n 'A'

/-- Index of a character in a digit list, counting from i. -/
def valOfAux (c : Char) : List Char → Nat → Option Nat
  | [], _ => none
  | x :: rest, i => if x = c then some i else valOfAux c rest (i + 1)

/-- Value of a digit character, none if it is not in the alphabet. -/
def valOf (c : Char) : Option Nat := valOfAux c uriKeyChars 0

/-- Modelled from the spec: the lz-string encoder is reversible and emits
only URL-safe characters.  Each code point is emitted as four base-64
digits of the URL-safe alphabet. -/
def encodeChar (c : Char) : List Char :=
  [digitOf (c.toNat / 262144 % 64), digitOf (c.toNat / 4096 % 64),
   digitOf (c.toNat / 64 % 64), digitOf (c.toNat % 64)]

/-- Decode one four-digit group back to a character; none when a digit is
outside the alphabet or the value is not a valid code point. -/
def decodeGroup (a b c d : Char) : Option Char :=
  match valOf a, valOf b, valOf c, valOf d with
  | some w, some x, some y, some z =>
    let n := ((w * 64 + x) * 64 + y) * 64 + z
    if n.isValidChar then some (Char.ofNat n) else none
  | _, _, _, _ => none

/-- Modelled from the spec: compressToEncodedURIComponent of the external
lz-string library. -/
def LZcompress : List Char → List Char
  | [] => []
  | c :: rest => encodeChar c ++ LZcompress rest

/-- Modelled from the spec: decompressFromEncodedURIComponent of the
external lz-string library; none on malformed input. -/
def LZdecompress : List Char → Option (List Char)
  | [] => some []
  | a :: b :: c :: d :: rest =>
    match decodeGroup a b c d, LZdecompress rest with
    | some ch, some tl => some (ch :: tl)
    | _, _ => none
  | _ => none

/-- Substitution applied by decompressMarkdown: a space read back from the
URL query was originally a plus sign (utils.ts comment). -/
def subPlus (c : Char) : Char := if c = ' ' then '+' else c

/-- compressMarkdown from utils.ts: empty string is falsy and short
circuits to the empty compressed form. -/
def compressMarkdown (markdown : List Char) : List Char :=
  if markdown = [] then [] else LZcompress markdown

/-- decompressMarkdown from utils.ts: empty input is falsy and yields
null; otherwise spaces are rewritten to plus signs and the result is
decompressed. -/
def decompressMarkdown (compressed : List Char) : Option (List Char) :=
  if compressed = [] then none else LZdecompress (compressed.map subPlus)

/-! ## Share-link decode path (Viewer.tsx, lines 14-43) -/

/-- Outcome of reading the c query parameter in the Viewer: the decoded
buffer, or one of the three distinct failure reasons. -/
inductive ShareOutcome where
  | ok (content : List Char)
  | absent
  | empty
  | corrupt
deriving DecidableEq

/-- Decode path of the Viewer effect: a missing c parameter is absent, a
whitespace-only value (its trim is the empty string) is empty, a value
that decompresses to null or to the empty (falsy) string is corrupt,
anything else succeeds with the decoded buffer. -/
def parseShareReference (encoded : Option (List Char)) : ShareOutcome :=
  match encoded with
  | none => .absent
  | some enc =>
    if enc.all (·.isWhitespace) then .empty
    else
      match decompressMarkdown enc with
      | some d => if d = [] then .corrupt else .ok d
      | none => .corrupt

/-! ## Share escalation (Editor.tsx handleShare, utils.ts) -/

/-- URL length limit for sharing, from utils.ts. -/
def MAX_SHAREABLE_URL_LENGTH : Nat := 2000

/-- The three share outcomes surfaced by handleShare: a direct link, a
shortened link, or the too-large fallback (which keeps the full
generated URL for the modal). -/
inductive ShareResult where
  | direct (url : List Char)
  | shortened (url : List Char)
  | tooLarge (url : List Char)
deriving DecidableEq

/-- The URL built by handleShare from the window origin and the
compressed buffer. -/
def generatedUrl (origin markdown : List Char) : List Char :=
  origin ++ "/#/view?c=".data ++ compressMarkdown markdown

/-- handleShare from Editor.tsx.  The network shortening call is an
external effect; its outcome is passed in as some shortUrl (the fetch
resolved with a short url) or none (it threw).  When the generated URL
exceeds the limit the code tries the shortener and falls back to the
too-large modal, keeping the full URL; otherwise the direct URL is
used.  The shortened result is used as-is, without a length re-check. -/
def handleShare (origin markdown : List Char) (shortenResult : Option (List Char)) :
    ShareResult :=
  if MAX_SHAREABLE_URL_LENGTH < (generatedUrl origin markdown).length then
    match shortenResult with
    | some shortUrl => .shortened shortUrl
    | none => .tooLarge (generatedUrl origin markdown)
  else .direct (generatedUrl origin markdown)

/-! ## Editor session state (Editor.tsx)

The live buffer, the history ref, the last committed checkpoint ref, the
two debounce timers (history 500 ms, auto-save 1000 ms) and the persisted
draft are modelled explicitly.  Timers hold their absolute deadline on a
Nat clock and fire through explicit events.  commitCount is a ghost
counter incremented exactly when pushToHistory records a checkpoint; it
does not influence any behaviour.
-/

structure EditorState where
  markdown : String
  lastSavedMarkdown : String
  past : List String
  future : List String
  historyTimeout : Option (Nat × String)
  autoSaveTimeout : Option Nat
  storedDraft : String
  commitCount : Nat
deriving DecidableEq

/-- The past stack after pushing one snapshot: push, then shift the
oldest entry out when the length exceeds 50 (Editor.tsx lines 250-251). -/
def pushPast (p : List String) (x : String) : List String :=
  if 50 < (p ++ [x]).length then (p ++ [x]).tail else p ++ [x]

/-- pushToHistory from Editor.tsx: no-op when the value equals the last
committed checkpoint; otherwise push the old checkpoint onto past
(evicting the oldest over the cap of 50), clear future, and advance the
checkpoint. -/
def pushToHistory (value : String) (s : EditorState) : EditorState :=
  if value = s.lastSavedMarkdown then s
  else
    { s with
      past := pushPast s.past s.lastSavedMarkdown
      future := []
      lastSavedMarkdown := value
      commitCount := s.commitCount + 1 }

/-- handleUndo from Editor.tsx: no-op on an empty past stack; otherwise
pop the last snapshot, push the live buffer onto future, and make the
popped snapshot both the checkpoint and the live buffer.  Setting the
buffer re-arms the auto-save debounce (the effect on markdown). -/
def handleUndo (now : Nat) (s : EditorState) : EditorState :=
  if s.past = [] then s
  else
    { s with
      past := s.past.dropLast
      future := s.future ++ [s.markdown]
      lastSavedMarkdown := s.past.getLastD ""
      markdown := s.past.getLastD ""
      autoSaveTimeout := some (now + 1000) }

/-- handleRedo from Editor.tsx, symmetric to handleUndo. -/
def handleRedo (now : Nat) (s : EditorState) : EditorState :=
  if s.future = [] then s
  else
    { s with
      future := s.future.dropLast
      past := s.past ++ [s.markdown]
      lastSavedMarkdown := s.future.getLastD ""
      markdown := s.future.getLastD ""
      autoSaveTimeout := some (now + 1000) }

/-- onMarkdownChange from Editor.tsx: set the buffer, cancel and restart
the 500 ms history debounce with the new value, and (through the effect
on markdown) restart the 1000 ms auto-save debounce. -/
def onMarkdownChange (now : Nat) (v : String) (s : EditorState) : EditorState :=
  { s with
    markdown := v
    historyTimeout := some (now + 500, v)
    autoSaveTimeout := some (now + 1000) }

/-- Firing of the history debounce at time now: if a timer is pending and
its deadline has passed, run pushToHistory with the value captured at
scheduling time. -/
def fireHistoryTimeout (now : Nat) (s : EditorState) : EditorState :=
  match s.historyTimeout with
  | some (d, v) => if d ≤ now then pushToHistory v { s with historyTimeout := none } else s
  | none => s

/-- Firing of the pending history debounce once the burst is over (the
clock has passed its deadline). -/
def flushHistory (s : EditorState) : EditorState :=
  match s.historyTimeout with
  | some (_, v) => pushToHistory v { s with historyTimeout := none }
  | none => s

/-- Firing of the auto-save debounce at time now: write the live buffer
to the persisted draft key (Editor.tsx lines 210-219). -/
def fireAutoSave (now : Nat) (s : EditorState) : EditorState :=
  match s.autoSaveTimeout with
  | some d =>
    if d ≤ now then { s with storedDraft := s.markdown, autoSaveTimeout := none } else s
  | none => s

/-- One edit event at time e.1 with new text e.2: any history timer whose
deadline has passed fires first, then the edit goes through
onMarkdownChange. -/
def stepEdit (s : EditorState) (e : Nat × String) : EditorState :=
  onMarkdownChange e.1 e.2 (fireHistoryTimeout e.1 s)

/-- A sequence of timed edit events processed in order. -/
def runEdits (s : EditorState) (es : List (Nat × String)) : EditorState :=
  es.foldl stepEdit s

/-- Every event of the list arrives strictly within 500 ms of the
previous one. -/
def withinWindow : List (Nat × String) → Bool
  | [] => true
  | [_] => true
  | e1 :: e2 :: rest => decide (e2.1 < e1.1 + 500) && withinWindow (e2 :: rest)

/-- Successful text import from processFile (Editor.tsx lines 394-432),
the reader.onload success path: clear both history stacks, move the
checkpoint and the buffer to the imported text.  The buffer change
re-arms the auto-save debounce; nothing is written to the draft key at
the time of the import. -/
def processFile (now : Nat) (text : String) (s : EditorState) : EditorState :=
  { s with
    past := []
    future := []
    lastSavedMarkdown := text
    markdown := text
    autoSaveTimeout := some (now + 1000) }

/-- A sequence of committed values, each applied through pushToHistory. -/
def commitSeq (s : EditorState) (vs : List String) : EditorState :=
  vs.foldl (fun acc v => pushToHistory v acc) s

/-- The undo scenario of the spec: setText a, commit, setText b, commit,
undo, on the explicit clock. -/
def undoRedoScenario (s0 : EditorState) (a b : String) : EditorState :=
  handleUndo 1200
    (fireHistoryTimeout 1100
      (onMarkdownChange 600 b
        (fireHistoryTimeout 500 (onMarkdownChange 0 a s0))))

/-! ## Search (Editor.tsx performSearch, lines 281-301)

performSearch builds a RegExp from the query and collects all matches,
bumping lastIndex by one after a zero-width match.  The JavaScript RegExp
engine is a platform primitive; it is modelled from the spec (literal /
regular-expression matching, malformed patterns rejected) as a small
total engine: literal characters, escapes, the dot wildcard and the
postfix star / plus / question quantifiers, with greedy backtracking
matching; grouping, classes, alternation and anchors are rejected as
malformed.  The exec scan loop itself is translated from the source.
-/

/-- A match span: start offset and end offset into the buffer. -/
structure Span where
  start : Nat
  stop : Nat
deriving DecidableEq, Repr

/-- Regex element: a literal character or the dot wildcard. -/
inductive RElem where
  | lit (c : Char)
  | dot
deriving DecidableEq

/-- Regex atom: an element matched once, starred, or optional. -/
inductive RAtom where
  | once (e : RElem)
  | star (e : RElem)
  | opt (e : RElem)
deriving DecidableEq

/-- Whether an element matches one character, honouring the
case-insensitive flag of the source (gi versus g). -/
def elemMatches (caseSensitive : Bool) (e : RElem) (x : Char) : Bool :=
  match e with
  | .lit c => if caseSensitive then x == c else x.toLower == c.toLower
  | .dot => x != '\n'

/-- Characters of the unsupported regex syntax, treated as a malformed
pattern by the modelled engine (a leading quantifier is also a syntax
error in the platform engine). -/
def isSpecialRegexChar (c : Char) : Bool :=
  c == '(' || c == ')' || c == '[' || c == ']' || c == '\x7b' || c == '\x7d' ||
  c == '|' || c == '^' || c == '$' || c == '*' || c == '+' || c == '?' || c == '\\'

/-- Element denoted by an unescaped pattern character. -/
def relemOf (c : Char) : RElem := if c == '.' then .dot else .lit c

/-- Modelled from the spec: parsing of the pattern by the platform RegExp
constructor; none models the SyntaxError caught by performSearch. -/
def parseRegex : List Char → Option (List RAtom)
  | [] => some []
  | '\\' :: [] => none
  | '\\' :: c :: '*' :: rest =>
    (parseRegex rest).map (fun as => .star (.lit c) :: as)
  | '\\' :: c :: '+' :: rest =>
    (parseRegex rest).map (fun as => .once (.lit c) :: .star (.lit c) :: as)
  | '\\' :: c :: '?' :: rest =>
    (parseRegex rest).map (fun as => .opt (.lit c) :: as)
  | '\\' :: c :: rest =>
    (parseRegex rest).map (fun as => .once (.lit c) :: as)
  | c :: '*' :: rest =>
    if isSpecialRegexChar c then none
    else (parseRegex rest).map (fun as => .star (relemOf c) :: as)
  | c :: '+' :: rest =>
    if isSpecialRegexChar c then none
    else (parseRegex rest).map (fun as => .once (relemOf c) :: .star (relemOf c) :: as)
  | c :: '?' :: rest =>
    if isSpecialRegexChar c then none
    else (parseRegex rest).map (fun as => .opt (relemOf c) :: as)
  | c :: rest =>
    if isSpecialRegexChar c then none
    else (parseRegex rest).map (fun as => .once (relemOf c) :: as)

/-- Greedy backtracking matcher: the length consumed by the atom list at
the front of the text, none when there is no match here.  The fuel
argument only bounds the recursion depth; every call chain shortens
either the atom list or the text, so the depth is at most their combined
length plus one. -/
def matchSeq (cs : Bool) : Nat → List RAtom → List Char → Option Nat
  | 0, _, _ => none
  | _ + 1, [], _ => some 0
  | _ + 1, .once _ :: _, [] => none
  | fuel + 1, .once e :: rest, x :: t =>
    if elemMatches cs e x then (matchSeq cs fuel rest t).map (· + 1) else none
  | fuel + 1, .opt _ :: rest, [] => matchSeq cs fuel rest []
  | fuel + 1, .opt e :: rest, x :: t =>
    if elemMatches cs e x then
      match matchSeq cs fuel rest t with
      | some m => some (m + 1)
      | none => matchSeq cs fuel rest (x :: t)
    else matchSeq cs fuel rest (x :: t)
  | fuel + 1, .star _ :: rest, [] => matchSeq cs fuel rest []
  | fuel + 1, .star e :: rest, x :: t =>
    if elemMatches cs e x then
      match matchSeq cs fuel (.star e :: rest) t with
      | some m => some (m + 1)
      | none => matchSeq cs fuel rest (x :: t)
    else matchSeq cs fuel rest (x :: t)

/-- Matcher entry point with sufficient fuel. -/
def runMatch (cs : Bool) (atoms : List RAtom) (t : List Char) : Option Nat :=
  matchSeq cs (atoms.length + t.length + 1) atoms t

/-- First match at or after the given position: exec scanning forward
from lastIndex.  Returns the absolute match position and its length. -/
def firstMatch (cs : Bool) (atoms : List RAtom) : List Char → Nat → Option (Nat × Nat)
  | [], pos =>
    match runMatch cs atoms [] with
    | some m => some (pos, m)
    | none => none
  | x :: t, pos =>
    match runMatch cs atoms (x :: t) with
    | some m => some (pos, m)
    | none => firstMatch cs atoms t (pos + 1)

/-- The exec loop of performSearch: collect match spans while advancing
lastIndex, bumping it by one extra after a zero-width match (Editor.tsx
line 293).  The fuel instrumentation makes exhaustion observable as
none; the loop is proved to answer some whenever the fuel is at least
the text length plus two. -/
def execLoop (cs : Bool) (atoms : List RAtom) (text : List Char) :
    Nat → Nat → Option (List Span)
  | 0, _ => none
  | fuel + 1, pos =>
    if text.length < pos then some []
    else
      match firstMatch cs atoms (text.drop pos) pos with
      | none => some []
      | some (p, m) =>
        (execLoop cs atoms text fuel (if m = 0 then p + 1 else p + m)).map
          (fun r => ⟨p, p + m⟩ :: r)

/-- performSearch from Editor.tsx: an empty term is inactive, a malformed
pattern is caught and degrades to no matches, otherwise the exec loop
collects every match span. -/
def performSearch (text term : String) (matchCase : Bool) : List Span :=
  if term = "" then []
  else
    match parseRegex term.data with
    | none => []
    | some atoms => (execLoop matchCase atoms text.data (text.data.length + 2) 0).getD []

/-! ## Scroll synchronisation (Editor.tsx handleScroll, lines 221-246) -/

/-- One scrollable pane: current offset and the geometry that determines
its maximal scroll offset.  Rational scalars keep the proportional
arithmetic exact. -/
structure Pane where
  scrollTop : ℚ
  scrollHeight : ℚ
  clientHeight : ℚ

/-- Maximal scroll offset of a pane. -/
def Pane.maxScroll (p : Pane) : ℚ := p.scrollHeight - p.clientHeight

/-- Proportional scroll position of a pane. -/
def Pane.fraction (p : Pane) : ℚ := p.scrollTop / p.maxScroll

/-- The two panes of the scroll synchroniser. -/
inductive Source where
  | editor
  | preview
deriving DecidableEq

/-- Scroll synchroniser state: both panes, the owner of the sync lock,
and the deadline of the 50 ms release timer. -/
structure ScrollSync where
  editor : Pane
  preview : Pane
  syncSource : Option Source
  syncTimeout : Option Nat

/-- Body of handleScroll once the guard passed: take the lock, mirror the
driving pane's proportional position onto the other pane (when the
driving pane can scroll at all), and restart the 50 ms release timer. -/
def handleScrollApply (now : Nat) (source : Source) (s : ScrollSync) : ScrollSync :=
  let s1 : ScrollSync := { s with syncSource := some source }
  let s2 : ScrollSync :=
    match source with
    | .editor =>
      if 0 < s1.editor.maxScroll then
        { s1 with preview.scrollTop :=
            s1.editor.scrollTop / s1.editor.maxScroll * s1.preview.maxScroll }
      else s1
    | .preview =>
      if 0 < s1.preview.maxScroll then
        { s1 with editor.scrollTop :=
            s1.preview.scrollTop / s1.preview.maxScroll * s1.editor.maxScroll }
      else s1
  { s2 with syncTimeout := some (now + 50) }

/-- handleScroll from Editor.tsx: events from a pane other than the lock
owner return immediately; otherwise the scroll is mirrored. -/
def handleScroll (now : Nat) (source : Source) (s : ScrollSync) : ScrollSync :=
  match s.syncSource with
  | some owner => if owner = source then handleScrollApply now source s else s
  | none => handleScrollApply now source s

/-- The 50 ms timeout callback releasing the sync lock once its deadline
has passed. -/
def releaseSyncLock (now : Nat) (s : ScrollSync) : ScrollSync :=
  match s.syncTimeout with
  | some d => if d ≤ now then { s with syncSource := none, syncTimeout := none } else s
  | none => s

/-! ## Concrete states used by witnesses and counterexamples -/

/-- A quiescent editor session whose buffer and checkpoint are the text a. -/
def c3Base : EditorState :=
  { markdown := "a", lastSavedMarkdown := "a", past := [], future := [],
    historyTimeout := none, autoSaveTimeout := none, storedDraft := "", commitCount := 0 }

/-- A quiescent editor session with empty stacks. -/
def c4Base : EditorState :=
  { markdown := "start", lastSavedMarkdown := "start", past := [], future := [],
    historyTimeout := none, autoSaveTimeout := none, storedDraft := "", commitCount := 0 }

/-- Session whose checkpoint is v0, about to receive sixty commits. -/
def c5Start : EditorState :=
  { markdown := "v0", lastSavedMarkdown := "v0", past := [], future := [],
    historyTimeout := none, autoSaveTimeout := none, storedDraft := "", commitCount := 0 }

/-- Sixty distinct sequential values v1 .. v60. -/
def c5Values : List String := (List.range 60).map (fun n => "v" ++ Nat.repr (n + 1))

/-- The fifty snapshots v10 .. v59 expected to survive the cap. -/
def c5Expected : List String := (List.range 50).map (fun n => "v" ++ Nat.repr (n + 10))

/-- A session with a persisted draft, used to observe what import does to
the draft key. -/
def c6State : EditorState :=
  { markdown := "old", lastSavedMarkdown := "old", past := [], future := [],
    historyTimeout := none, autoSaveTimeout := none, storedDraft := "olddraft",
    commitCount := 0 }

/-- A 600-character document whose compressed reference exceeds the URL
limit. -/
def c7doc : List Char := List.replicate 600 'a'

/-- A 3000-character result from the shortening call, itself over the
limit. -/
def c7short : List Char := List.replicate 3000 'x'

/-- A scroll state with the editor pane at its halfway position and no
lock held. -/
def c9S : ScrollSync :=
  { editor := { scrollTop := 1, scrollHeight := 3, clientHeight := 1 },
    preview := { scrollTop := 0, scrollHeight := 5, clientHeight := 1 },
    syncSource := none, syncTimeout := none }

/-! ## Codec lemmas -/

theorem valOf_digitOf_all : ∀ n, n < 64 → valOf (digitOf n) = some n := by decide

theorem digitOf_ne_space : ∀ n, n < 64 → digitOf n ≠ ' ' := by decide

theorem decodeGroup_encodeChar (c : Char) :
    decodeGroup (digitOf (c.toNat / 262144 % 64)) (digitOf (c.toNat / 4096 % 64))
      (digitOf (c.toNat / 64 % 64)) (digitOf (c.toNat % 64)) = some c := by
  have h64 : (0 : Nat) < 64 := by norm_num
  have e3 := valOf_digitOf_all (c.toNat / 262144 % 64) (Nat.mod_lt _ h64)
  have e2 := valOf_digitOf_all (c.toNat / 4096 % 64) (Nat.mod_lt _ h64)
  have e1 := valOf_digitOf_all (c.toNat / 64 % 64) (Nat.mod_lt _ h64)
  have e0 := valOf_digitOf_all (c.toNat % 64) (Nat.mod_lt _ h64)
  have hv : c.toNat.isValidChar := c.valid
  have hlt : c.toNat < 1114112 := by
    rcases hv with h | ⟨_, h⟩ <;> omega
  have harith :
      ((c.toNat / 262144 % 64 * 64 + c.toNat / 4096 % 64) * 64 + c.toNat / 64 % 64) * 64 +
        c.toNat % 64 = c.toNat := by
    omega
  simp only [decodeGroup, e3, e2, e1, e0, harith]
  rw [if_pos hv, Char.ofNat_toNat]

theorem LZdecompress_LZcompress : ∀ s : List Char, LZdecompress (LZcompress s) = some s
  | [] => rfl
  | c :: rest => by
    show LZdecompress
        (digitOf (c.toNat / 262144 % 64) :: digitOf (c.toNat / 4096 % 64) ::
          digitOf (c.toNat / 64 % 64) :: digitOf (c.toNat % 64) :: LZcompress rest) =
      some (c :: rest)
    simp only [LZdecompress, decodeGroup_encodeChar c, LZdecompress_LZcompress rest]

theorem subPlus_digitOf (n : Nat) : subPlus (digitOf (n % 64)) = digitOf (n % 64) := by
  have h := digitOf_ne_space (n % 64) (Nat.mod_lt _ (by norm_num))
  simp [subPlus, h]

theorem map_subPlus_LZcompress : ∀ s : List Char, (LZcompress s).map subPlus = LZcompress s
  | [] => rfl
  | c :: rest => by
    simp only [LZcompress, encodeChar, List.map_append, List.map_cons, List.map_nil,
      map_subPlus_LZcompress rest, subPlus_digitOf]

theorem LZcompress_eq_nil {s : List Char} : LZcompress s = [] ↔ s = [] := by
  cases s with
  | nil => simp [LZcompress]
  | cons c rest => simp [LZcompress, encodeChar]

theorem LZcompress_length : ∀ s : List Char, (LZcompress s).length = 4 * s.length
  | [] => rfl
  | c :: rest => by
    simp only [LZcompress, encodeChar, List.length_append, List.length_cons,
      List.length_nil, LZcompress_length rest]
    try omega

theorem generatedUrl_length (origin markdown : List Char) (h : markdown ≠ []) :
    (generatedUrl origin markdown).length = origin.length + 10 + 4 * markdown.length := by
  have h10 : ("/#/view?c=".data).length = 10 := by decide
  simp only [generatedUrl, compressMarkdown, if_neg h, List.length_append, h10,
    LZcompress_length]
  try omega

/-! ## Claim theorems -/

/-- C1 (amended): for every nonempty buffer text t, decoding the encoding
of t returns t; on the empty buffer the round trip fails, because
compressMarkdown maps it to the empty compressed string, which
decompressMarkdown rejects with null. -/
theorem c1_roundtrip (t : List Char) (h : t ≠ []) :
    decompressMarkdown (compressMarkdown t) = some t := by
  have hc : LZcompress t ≠ [] := fun he => h (LZcompress_eq_nil.mp he)
  rw [compressMarkdown, if_neg h, decompressMarkdown, if_neg hc,
    map_subPlus_LZcompress, LZdecompress_LZcompress]

/-- C1 counterexample: the round trip fails on the empty buffer, whose
decode is null rather than the empty text. -/
theorem c1_empty_counterexample :
    decompressMarkdown (compressMarkdown []) ≠ some [] := by decide

theorem c1_roundtrip_witness :
    (['h', 'i'] : List Char) ≠ [] ∧
      decompressMarkdown (compressMarkdown ['h', 'i']) = some ['h', 'i'] :=
  ⟨by decide, c1_roundtrip ['h', 'i'] (by decide)⟩

/-- C2: the Viewer decode path distinguishes the three failure reasons: a
missing c parameter is absent, a present empty value is empty, a present
non-whitespace value that does not decompress is corrupt, and a
successful decode yields the decoded buffer. -/
theorem c2_parse_share_reference :
    parseShareReference none = ShareOutcome.absent ∧
    parseShareReference (some []) = ShareOutcome.empty ∧
    (∀ s : List Char, s.all (·.isWhitespace) = false → decompressMarkdown s = none →
      parseShareReference (some s) = ShareOutcome.corrupt) ∧
    (∀ (s d : List Char), s.all (·.isWhitespace) = false → decompressMarkdown s = some d →
      d ≠ [] → parseShareReference (some s) = ShareOutcome.ok d) := by
  refine ⟨rfl, rfl, ?_, ?_⟩
  · intro s hws hd
    simp [parseShareReference, hws, hd]
  · intro s d hws hd hne
    simp [parseShareReference, hws, hd, hne]

theorem c2_parse_share_reference_witness :
    parseShareReference (some ['A']) = ShareOutcome.corrupt :=
  c2_parse_share_reference.2.2.1 ['A'] (by decide) (by decide)

/-- C7 (amended): a reference within the 2000-character limit yields
Direct with the full reference; over the limit, a successful shortening
call yields Shortened with the shortener's URL as-is, its length never
re-checked, and TooLarge arises exactly when the shortening call fails,
still carrying the full untruncated reference. -/
theorem c7_share_escalation (origin markdown : List Char)
    (shortenResult : Option (List Char)) :
    ((generatedUrl origin markdown).length ≤ MAX_SHAREABLE_URL_LENGTH →
      handleShare origin markdown shortenResult =
        ShareResult.direct (generatedUrl origin markdown)) ∧
    (MAX_SHAREABLE_URL_LENGTH < (generatedUrl origin markdown).length →
      ∀ su, shortenResult = some su →
        handleShare origin markdown shortenResult = ShareResult.shortened su) ∧
    (MAX_SHAREABLE_URL_LENGTH < (generatedUrl origin markdown).length →
      shortenResult = none →
        handleShare origin markdown shortenResult =
          ShareResult.tooLarge (generatedUrl origin markdown)) := by
  refine ⟨?_, ?_, ?_⟩
  · intro h
    simp only [handleShare]
    rw [if_neg (by omega)]
  · intro h su hsu
    subst hsu
    simp only [handleShare]
    rw [if_pos h]
  · intro h hn
    subst hn
    simp only [handleShare]
    rw [if_pos h]

/-- C7 counterexample: a document over the limit whose shortening call
succeeds with a URL that is itself over the limit still yields
Shortened, not TooLarge. -/
theorem c7_overlong_short_counterexample :
    MAX_SHAREABLE_URL_LENGTH < (generatedUrl [] c7doc).length ∧
    MAX_SHAREABLE_URL_LENGTH < c7short.length ∧
    handleShare [] c7doc (some c7short) = ShareResult.shortened c7short := by
  have hne : c7doc ≠ [] := by
    intro h
    have hlen := congrArg List.length h
    simp only [c7doc, List.length_replicate, List.length_nil] at hlen
    omega
  have h1 : (generatedUrl [] c7doc).length = 2410 := by
    rw [generatedUrl_length [] c7doc hne]
    simp only [c7doc, List.length_replicate, List.length_nil]
  have hgt : MAX_SHAREABLE_URL_LENGTH < (generatedUrl [] c7doc).length := by
    rw [h1]
    norm_num [MAX_SHAREABLE_URL_LENGTH]
  have hshort : MAX_SHAREABLE_URL_LENGTH < c7short.length := by
    simp only [c7short, List.length_replicate, MAX_SHAREABLE_URL_LENGTH]
    norm_num
  refine ⟨hgt, hshort, ?_⟩
  simp only [handleShare]
  rw [if_pos hgt]

theorem c7_share_escalation_witness :
    handleShare [] ['a'] none = ShareResult.direct (generatedUrl [] ['a']) :=
  (c7_share_escalation [] ['a'] none).1 (by decide)

/-! ## History lemmas -/

theorem pushPast_ne_nil (p : List String) (x : String) : pushPast p x ≠ [] := by
  unfold pushPast
  split
  · rename_i hlen
    cases p with
    | nil =>
      exfalso
      simp only [List.nil_append, List.length_cons, List.length_nil] at hlen
      omega
    | cons h t =>
      simp only [List.cons_append, List.tail_cons]
      simp
  · simp

theorem getLastD_pushPast (p : List String) (x d : String) :
    (pushPast p x).getLastD d = x := by
  unfold pushPast
  split
  · rename_i hlen
    cases p with
    | nil =>
      exfalso
      simp only [List.nil_append, List.length_cons, List.length_nil] at hlen
      omega
    | cons h t =>
      simp only [List.cons_append, List.tail_cons]
      exact List.getLastD_concat d x t
  · exact List.getLastD_concat d x p

theorem pushPast_length_le (p : List String) (x : String) (h : p.length ≤ 50) :
    (pushPast p x).length ≤ 50 := by
  unfold pushPast
  split
  · rename_i hlen
    simp only [List.length_tail, List.length_append, List.length_cons, List.length_nil]
    omega
  · rename_i hlen
    simp only [List.length_append, List.length_cons, List.length_nil] at hlen ⊢
    omega

theorem getLast?_getD_pushPast (p : List String) (x d : String) :
    (pushPast p x).getLast?.getD d = x := by
  rw [← List.getLastD_eq_getLast?]
  exact getLastD_pushPast p x d

theorem pushToHistory_commitCount (v : String) (s : EditorState) :
    (pushToHistory v s).commitCount =
      s.commitCount + (if v = s.lastSavedMarkdown then 0 else 1) := by
  unfold pushToHistory
  split
  · omega
  · rfl

/-- During a burst whose events each arrive within 500 ms of the previous
one, the pending history timer never fires: no commit happens, the
checkpoint and past stack are untouched, and the timer ends up armed with
the last event's time and value. -/
theorem runEdits_burst :
    ∀ (es : List (Nat × String)) (s : EditorState) (t : Nat) (v : String),
      s.historyTimeout = some (t + 500, v) → withinWindow ((t, v) :: es) = true →
      (runEdits s es).commitCount = s.commitCount ∧
      (runEdits s es).lastSavedMarkdown = s.lastSavedMarkdown ∧
      (runEdits s es).historyTimeout =
        some ((es.getLastD (t, v)).1 + 500, (es.getLastD (t, v)).2)
  | [], s, t, v, ht, _ => by
    refine ⟨rfl, rfl, ?_⟩
    simpa [runEdits, List.getLastD] using ht
  | (t2, v2) :: rest, s, t, v, ht, hw => by
    have hw' : t2 < t + 500 ∧ withinWindow ((t2, v2) :: rest) = true := by
      simpa [withinWindow, Bool.and_eq_true, decide_eq_true_eq] using hw
    have hnofire : ¬(t + 500 ≤ t2) := Nat.not_le.mpr hw'.1
    have hstep : stepEdit s (t2, v2) =
        { s with
          markdown := v2
          historyTimeout := some (t2 + 500, v2)
          autoSaveTimeout := some (t2 + 1000) } := by
      simp [stepEdit, fireHistoryTimeout, ht, hnofire, onMarkdownChange]
    have ih := runEdits_burst rest (stepEdit s (t2, v2)) t2 v2 (by rw [hstep]) hw'.2
    have hrun : runEdits s ((t2, v2) :: rest) = runEdits (stepEdit s (t2, v2)) rest := rfl
    rw [hrun]
    refine ⟨?_, ?_, ?_⟩
    · rw [ih.1, hstep]
    · rw [ih.2.1, hstep]
    · rw [List.getLastD_cons]
      exact ih.2.2

/-- C3 (amended): a burst of setText calls each within the 500 ms window
of the previous one commits nothing while it lasts (every new edit only
restarts the timer), and when the timer finally fires it records exactly
one checkpoint if the burst's final value differs from the last committed
checkpoint and none otherwise. -/
theorem c3_debounce_coalescing (s0 : EditorState) (es : List (Nat × String))
    (h0 : s0.historyTimeout = none) (hne : es ≠ []) (hw : withinWindow es = true) :
    (runEdits s0 es).commitCount = s0.commitCount ∧
    (flushHistory (runEdits s0 es)).commitCount =
      s0.commitCount +
        (if (es.getLastD (0, "")).2 = s0.lastSavedMarkdown then 0 else 1) := by
  obtain ⟨⟨t1, v1⟩, rest, rfl⟩ : ∃ e rest, es = e :: rest := by
    cases es with
    | nil => exact absurd rfl hne
    | cons e rest => exact ⟨e, rest, rfl⟩
  have hstep : stepEdit s0 (t1, v1) =
      { s0 with
        markdown := v1
        historyTimeout := some (t1 + 500, v1)
        autoSaveTimeout := some (t1 + 1000) } := by
    simp [stepEdit, fireHistoryTimeout, h0, onMarkdownChange]
  have ih := runEdits_burst rest (stepEdit s0 (t1, v1)) t1 v1 (by rw [hstep]) hw
  have hrun : runEdits s0 ((t1, v1) :: rest) = runEdits (stepEdit s0 (t1, v1)) rest := rfl
  have hcc : (runEdits (stepEdit s0 (t1, v1)) rest).commitCount = s0.commitCount := by
    rw [ih.1, hstep]
  have hls : (runEdits (stepEdit s0 (t1, v1)) rest).lastSavedMarkdown =
      s0.lastSavedMarkdown := by
    rw [ih.2.1, hstep]
  rw [hrun]
  refine ⟨hcc, ?_⟩
  simp only [flushHistory, ih.2.2, List.getLastD_cons, pushToHistory_commitCount,
    hcc, hls]

/-- C3 counterexample: a two-keystroke burst that edits away from the
checkpoint and back to it produces zero checkpoints, not exactly one. -/
theorem c3_burst_counterexample :
    c3Base.historyTimeout = none ∧
    ([((0 : Nat), "b"), ((100 : Nat), "a")] ≠ ([] : List (Nat × String))) ∧
    withinWindow [(0, "b"), (100, "a")] = true ∧
    (flushHistory (runEdits c3Base [(0, "b"), (100, "a")])).commitCount ≠
      c3Base.commitCount + 1 :=
  ⟨rfl, by decide, by decide, by decide⟩

theorem c3_debounce_coalescing_witness :
    (runEdits c3Base [(0, "b"), (100, "c")]).commitCount = c3Base.commitCount ∧
    (flushHistory (runEdits c3Base [(0, "b"), (100, "c")])).commitCount =
      c3Base.commitCount +
        (if ([((0 : Nat), "b"), ((100 : Nat), "c")].getLastD (0, "")).2 =
            c3Base.lastSavedMarkdown then 0 else 1) :=
  c3_debounce_coalescing c3Base [(0, "b"), (100, "c")] rfl (by decide) (by decide)

/-- C4: after setText a, commit, setText b, commit, undo, the buffer is a
and a subsequent redo brings it back to b; undo on an empty past stack
and redo on an empty future stack leave the whole state unchanged. -/
theorem c4_undo_redo :
    (∀ (s0 : EditorState) (a b : String), a ≠ b →
      (undoRedoScenario s0 a b).markdown = a ∧
      (handleRedo 1300 (undoRedoScenario s0 a b)).markdown = b) ∧
    (∀ (now : Nat) (s : EditorState), s.past = [] → handleUndo now s = s) ∧
    (∀ (now : Nat) (s : EditorState), s.future = [] → handleRedo now s = s) := by
  refine ⟨?_, ?_, ?_⟩
  · intro s0 a b hab
    by_cases hab0 : a = s0.lastSavedMarkdown
    · have hbs : ¬(b = s0.lastSavedMarkdown) := fun h => hab (by rw [hab0, h])
      constructor <;>
        simp [undoRedoScenario, fireHistoryTimeout, onMarkdownChange, pushToHistory,
          handleUndo, handleRedo, hab0, hbs, getLastD_pushPast, getLast?_getD_pushPast,
          pushPast_ne_nil, List.getLastD_cons, List.getLastD_nil]
    · have hba : ¬(b = a) := fun h => hab h.symm
      constructor <;>
        simp [undoRedoScenario, fireHistoryTimeout, onMarkdownChange, pushToHistory,
          handleUndo, handleRedo, hab0, hba, getLastD_pushPast, getLast?_getD_pushPast,
          pushPast_ne_nil, List.getLastD_cons, List.getLastD_nil]
  · intro now s h
    simp [handleUndo, h]
  · intro now s h
    simp [handleRedo, h]

theorem c4_undo_redo_witness :
    (undoRedoScenario c4Base "a" "b").markdown = "a" ∧
    (handleRedo 1300 (undoRedoScenario c4Base "a" "b")).markdown = "b" ∧
    handleUndo 0 c4Base = c4Base ∧ handleRedo 0 c4Base = c4Base :=
  ⟨(c4_undo_redo.1 c4Base "a" "b" (by decide)).1,
   (c4_undo_redo.1 c4Base "a" "b" (by decide)).2,
   c4_undo_redo.2.1 0 c4Base rfl,
   c4_undo_redo.2.2 0 c4Base rfl⟩

/-- C5: a commit keeps the past stack within 50 snapshots, and committing
sixty distinct sequential values v1 .. v60 over checkpoint v0 leaves
exactly the fifty snapshots v10 .. v59, the oldest ten evicted first. -/
theorem c5_history_cap :
    (∀ (v : String) (s : EditorState), s.past.length ≤ 50 →
      (pushToHistory v s).past.length ≤ 50) ∧
    (commitSeq c5Start c5Values).past = c5Expected ∧
    (commitSeq c5Start c5Values).past.length = 50 := by
  refine ⟨?_, by decide, by decide⟩
  intro v s h
  unfold pushToHistory
  split
  · exact h
  · exact pushPast_length_le s.past s.lastSavedMarkdown h

theorem c5_history_cap_witness :
    (pushToHistory "x" c5Start).past.length ≤ 50 :=
  c5_history_cap.1 "x" c5Start (by decide)

/-- C6 (amended): a successful text import replaces the buffer, clears
both history stacks (an immediate undo is a no-op), leaves the persisted
draft unchanged at import time, and the draft reaches the imported text
through the re-armed 1000 ms auto-save debounce when it fires. -/
theorem c6_import_reset (s : EditorState) (now : Nat) (text : String) :
    (processFile now text s).markdown = text ∧
    (processFile now text s).past = [] ∧
    (processFile now text s).future = [] ∧
    (∀ n2, handleUndo n2 (processFile now text s) = processFile now text s) ∧
    (processFile now text s).storedDraft = s.storedDraft ∧
    (fireAutoSave (now + 1000) (processFile now text s)).storedDraft = text := by
  refine ⟨rfl, rfl, rfl, ?_, rfl, ?_⟩
  · intro n2
    simp [handleUndo, processFile]
  · simp [fireAutoSave, processFile]

/-- C6 counterexample: importing does not write the persisted-draft key
synchronously; right after the import the stored draft still holds its
old value. -/
theorem c6_sync_persist_counterexample :
    (processFile 0 "new" c6State).storedDraft ≠ "new" := by decide

/-! ## Search lemmas -/

theorem matchSeq_le (cs : Bool) :
    ∀ (fuel : Nat) (atoms : List RAtom) (t : List Char) (m : Nat),
      matchSeq cs fuel atoms t = some m → m ≤ t.length
  | 0, _, _, _, h => by simp [matchSeq] at h
  | _ + 1, [], t, m, h => by
    simp [matchSeq] at h
    omega
  | _ + 1, .once _ :: _, [], _, h => by simp [matchSeq] at h
  | fuel + 1, .once e :: rest, x :: t, m, h => by
    simp only [matchSeq] at h
    by_cases hx : elemMatches cs e x
    · rw [if_pos hx] at h
      cases hm : matchSeq cs fuel rest t with
      | none =>
        rw [hm] at h
        simp at h
      | some k =>
        rw [hm] at h
        simp only [Option.map_some', Option.some.injEq] at h
        have hk := matchSeq_le cs fuel rest t k hm
        simp only [List.length_cons]
        omega
    · rw [if_neg hx] at h
      simp at h
  | fuel + 1, .opt _ :: rest, [], m, h => by
    simp only [matchSeq] at h
    simpa using matchSeq_le cs fuel rest [] m h
  | fuel + 1, .opt e :: rest, x :: t, m, h => by
    simp only [matchSeq] at h
    by_cases hx : elemMatches cs e x
    · rw [if_pos hx] at h
      cases hm : matchSeq cs fuel rest t with
      | none =>
        rw [hm] at h
        exact matchSeq_le cs fuel rest (x :: t) m h
      | some k =>
        rw [hm] at h
        simp only [Option.some.injEq] at h
        have hk := matchSeq_le cs fuel rest t k hm
        simp only [List.length_cons]
        omega
    · rw [if_neg hx] at h
      exact matchSeq_le cs fuel rest (x :: t) m h
  | fuel + 1, .star _ :: rest, [], m, h => by
    simp only [matchSeq] at h
    simpa using matchSeq_le cs fuel rest [] m h
  | fuel + 1, .star e :: rest, x :: t, m, h => by
    simp only [matchSeq] at h
    by_cases hx : elemMatches cs e x
    · rw [if_pos hx] at h
      cases hm : matchSeq cs fuel (.star e :: rest) t with
      | none =>
        rw [hm] at h
        exact matchSeq_le cs fuel rest (x :: t) m h
      | some k =>
        rw [hm] at h
        simp only [Option.some.injEq] at h
        have hk := matchSeq_le cs fuel (.star e :: rest) t k hm
        simp only [List.length_cons]
        omega
    · rw [if_neg hx] at h
      exact matchSeq_le cs fuel rest (x :: t) m h

theorem firstMatch_bounds (cs : Bool) (atoms : List RAtom) :
    ∀ (t : List Char) (pos p m : Nat),
      firstMatch cs atoms t pos = some (p, m) → pos ≤ p ∧ p + m ≤ pos + t.length
  | [], pos, p, m, h => by
    simp only [firstMatch] at h
    cases hr : runMatch cs atoms [] with
    | none =>
      rw [hr] at h
      simp at h
    | some k =>
      rw [hr] at h
      simp only [Option.some.injEq, Prod.mk.injEq] at h
      obtain ⟨rfl, rfl⟩ := h
      have hr' : matchSeq cs (atoms.length + ([] : List Char).length + 1) atoms [] = some k :=
        hr
      have hk := matchSeq_le cs _ atoms [] k hr'
      simp only [List.length_nil] at hk ⊢
      omega
  | x :: t, pos, p, m, h => by
    simp only [firstMatch] at h
    cases hr : runMatch cs atoms (x :: t) with
    | none =>
      rw [hr] at h
      have hrec := firstMatch_bounds cs atoms t (pos + 1) p m h
      simp only [List.length_cons]
      omega
    | some k =>
      rw [hr] at h
      simp only [Option.some.injEq, Prod.mk.injEq] at h
      obtain ⟨rfl, rfl⟩ := h
      have hr' : matchSeq cs (atoms.length + (x :: t).length + 1) atoms (x :: t) = some k :=
        hr
      have hk := matchSeq_le cs _ atoms (x :: t) k hr'
      simp only [List.length_cons] at hk ⊢
      omega

/-- With fuel at least the text length plus two the exec loop never
exhausts: the scan position strictly increases after every match, zero
width ones included, so the loop always reaches the end of the text. -/
theorem execLoop_isSome (cs : Bool) (atoms : List RAtom) (text : List Char) :
    ∀ (fuel pos : Nat), pos ≤ text.length + 1 → text.length + 2 - pos ≤ fuel →
      ∃ r, execLoop cs atoms text fuel pos = some r
  | 0, pos, hpos, hfuel => by
    exfalso
    omega
  | fuel + 1, pos, hpos, hfuel => by
    by_cases hlt : text.length < pos
    · exact ⟨[], by simp only [execLoop, if_pos hlt]⟩
    · cases hm : firstMatch cs atoms (text.drop pos) pos with
      | none => exact ⟨[], by simp only [execLoop, if_neg hlt, hm]⟩
      | some pm =>
        obtain ⟨p, m⟩ := pm
        obtain ⟨hp, hpm⟩ := firstMatch_bounds cs atoms (text.drop pos) pos p m hm
        rw [List.length_drop] at hpm
        have hnew : (if m = 0 then p + 1 else p + m) ≤ text.length + 1 := by
          split <;> omega
        obtain ⟨r, hr⟩ := execLoop_isSome cs atoms text fuel
          (if m = 0 then p + 1 else p + m) hnew (by split <;> omega)
        exact ⟨⟨p, p + m⟩ :: r, by simp only [execLoop, if_neg hlt, hm, hr, Option.map_some']⟩

/-- Spans collected by the exec loop start at or after the scan position
and are in strictly ascending start order. -/
theorem execLoop_sorted (cs : Bool) (atoms : List RAtom) (text : List Char) :
    ∀ (fuel pos : Nat) (r : List Span), execLoop cs atoms text fuel pos = some r →
      (∀ sp ∈ r, pos ≤ sp.start) ∧ List.Pairwise (fun a b => a.start < b.start) r
  | 0, pos, r, h => by simp [execLoop] at h
  | fuel + 1, pos, r, h => by
    by_cases hlt : text.length < pos
    · simp only [execLoop, if_pos hlt, Option.some.injEq] at h
      subst h
      exact ⟨by simp, by simp⟩
    · cases hm : firstMatch cs atoms (text.drop pos) pos with
      | none =>
        simp only [execLoop, if_neg hlt, hm, Option.some.injEq] at h
        subst h
        exact ⟨by simp, by simp⟩
      | some pm =>
        obtain ⟨p, m⟩ := pm
        simp only [execLoop, if_neg hlt, hm, Option.map_eq_some'] at h
        obtain ⟨r', hr', rfl⟩ := h
        obtain ⟨hp, hpm⟩ := firstMatch_bounds cs atoms (text.drop pos) pos p m hm
        obtain ⟨hmem, hpw⟩ :=
          execLoop_sorted cs atoms text fuel (if m = 0 then p + 1 else p + m) r' hr'
        have hstep : p + 1 ≤ (if m = 0 then p + 1 else p + m) := by split <;> omega
        constructor
        · intro sp hsp
          rcases List.mem_cons.mp hsp with rfl | hsp'
          · exact hp
          · have hge := hmem sp hsp'
            omega
        · refine List.pairwise_cons.mpr ⟨?_, hpw⟩
          intro sp hsp
          have hge := hmem sp hsp
          show p < sp.start
          omega

/-- C8: performSearch returns the spans of the query in ascending start
order; on the sample text the case-insensitive query ghost yields exactly
the two spans 0-5 and 6-11 while the case-sensitive query GHOST yields
none; an empty query and a malformed pattern both yield the empty
sequence rather than an error. -/
theorem c8_search :
    performSearch "ghost ghost boo" "ghost" false = [⟨0, 5⟩, ⟨6, 11⟩] ∧
    performSearch "ghost ghost boo" "GHOST" true = [] ∧
    (∀ (text : String) (cs : Bool), performSearch text "" cs = []) ∧
    (∀ (text term : String) (cs : Bool), parseRegex term.data = none →
      performSearch text term cs = []) ∧
    (∀ (text term : String) (cs : Bool),
      List.Pairwise (fun a b => a.start < b.start) (performSearch text term cs)) := by
  refine ⟨by decide, by decide, ?_, ?_, ?_⟩
  · intro text cs
    simp [performSearch]
  · intro text term cs hp
    by_cases ht : term = ""
    · simp [performSearch, ht]
    · simp [performSearch, ht, hp]
  · intro text term cs
    by_cases ht : term = ""
    · simp [performSearch, ht]
    · cases hp : parseRegex term.data with
      | none => simp [performSearch, ht, hp]
      | some atoms =>
        simp only [performSearch, if_neg ht, hp]
        obtain ⟨r, hr⟩ := execLoop_isSome cs atoms text.data (text.data.length + 2) 0
          (by omega) (by omega)
        rw [hr, Option.getD_some]
        exact (execLoop_sorted cs atoms text.data _ 0 r hr).2

theorem c8_search_witness : performSearch "abc" "(" false = [] :=
  c8_search.2.2.2.1 "abc" "(" false (by decide)

/-- C10: the exec loop of performSearch terminates on every pattern and
text with the sufficient fuel it is given, returning a finite span list;
patterns matching the empty string advance the scan position by one, as
the zero-width matches of the pattern a star on the text aaa show. -/
theorem c10_search_terminates :
    (∀ (cs : Bool) (atoms : List RAtom) (text : List Char),
      ∃ r, execLoop cs atoms text (text.length + 2) 0 = some r) ∧
    performSearch "aaa" "a*" false = [⟨0, 3⟩, ⟨3, 3⟩] := by
  refine ⟨?_, by decide⟩
  intro cs atoms text
  exact execLoop_isSome cs atoms text (text.length + 2) 0 (by omega) (by omega)

/-- C9: from an unlocked state with both panes scrollable, a scroll event
on one pane aligns the other pane's proportional position with the
driving pane's, the induced scroll event on the other pane is suppressed
by the lock (the state is unchanged, so no echo), and the release timer
clears the lock 50 ms later. -/
theorem c9_scroll_sync (s : ScrollSync) (now now2 : Nat)
    (hsrc : s.syncSource = none)
    (he : 0 < s.editor.maxScroll) (hp : 0 < s.preview.maxScroll) :
    ((handleScroll now .editor s).preview.fraction =
        (handleScroll now .editor s).editor.fraction ∧
      handleScroll now2 .preview (handleScroll now .editor s) =
        handleScroll now .editor s ∧
      (releaseSyncLock (now + 50) (handleScroll now .editor s)).syncSource = none) ∧
    ((handleScroll now .preview s).editor.fraction =
        (handleScroll now .preview s).preview.fraction ∧
      handleScroll now2 .editor (handleScroll now .preview s) =
        handleScroll now .preview s ∧
      (releaseSyncLock (now + 50) (handleScroll now .preview s)).syncSource = none) := by
  have he' : (0 : ℚ) < s.editor.scrollHeight - s.editor.clientHeight := he
  have hp' : (0 : ℚ) < s.preview.scrollHeight - s.preview.clientHeight := hp
  have hpe : s.preview.scrollHeight - s.preview.clientHeight ≠ 0 := ne_of_gt hp'
  have hee : s.editor.scrollHeight - s.editor.clientHeight ≠ 0 := ne_of_gt he'
  have he2 : s.editor.clientHeight < s.editor.scrollHeight := sub_pos.mp he'
  have hp2 : s.preview.clientHeight < s.preview.scrollHeight := sub_pos.mp hp'
  constructor
  · refine ⟨?_, ?_, ?_⟩
    · simp only [handleScroll, hsrc, handleScrollApply, Pane.fraction, Pane.maxScroll,
        if_pos he']
      exact mul_div_cancel_right₀ _ hpe
    · simp [handleScroll, hsrc, handleScrollApply, Pane.maxScroll, he2]
    · simp [releaseSyncLock, handleScroll, hsrc, handleScrollApply, Pane.maxScroll, he2]
  · refine ⟨?_, ?_, ?_⟩
    · simp only [handleScroll, hsrc, handleScrollApply, Pane.fraction, Pane.maxScroll,
        if_pos hp']
      exact mul_div_cancel_right₀ _ hee
    · simp [handleScroll, hsrc, handleScrollApply, Pane.maxScroll, hp2]
    · simp [releaseSyncLock, handleScroll, hsrc, handleScrollApply, Pane.maxScroll, hp2]

theorem c9_scroll_sync_witness :
    ((handleScroll 0 .editor c9S).preview.fraction =
        (handleScroll 0 .editor c9S).editor.fraction ∧
      handleScroll 7 .preview (handleScroll 0 .editor c9S) =
        handleScroll 0 .editor c9S ∧
      (releaseSyncLock (0 + 50) (handleScroll 0 .editor c9S)).syncSource = none) ∧
    ((handleScroll 0 .preview c9S).editor.fraction =
        (handleScroll 0 .preview c9S).preview.fraction ∧
      handleScroll 7 .editor (handleScroll 0 .preview c9S) =
        handleScroll 0 .preview c9S ∧
      (releaseSyncLock (0 + 50) (handleScroll 0 .preview c9S)).syncSource = none) :=
  c9_scroll_sync c9S 0 7 rfl (by norm_num [Pane.maxScroll, c9S])
    (by norm_num [Pane.maxScroll, c9S])

end GhostMd
